import Mathlib

/-!
Shallow embedding of the ride-sharing dispatch core
(`src/ride_sharing_system.py`, the queue-based implementation, together with
`driver.py` and `passenger.py`).

Modelling conventions:
* Python `None`-or-string node values are `Val := Option String`
  (`none` is Python `None`).
* `calculate_optimal_route` returns either a Python list (possibly empty) or
  `None`; this is `Route := Option (List String)`.
* A raised Python exception (`KeyError` from a dict lookup on a missing key)
  is the `PyResult.exn` outcome.  The Dijkstra loop in Lean needs fuel; running
  out of fuel is the separate outcome `PyResult.fuelout`, which is a model
  artifact and is proved unreachable on the configured graph wherever it
  matters.
* Python dicts are association lists with update-or-append assignment.
* `calculate_distance` (the haversine great-circle formula over floats) is
  abstracted as a rational-valued distance-function parameter `dist`; all
  dispatch-level theorems are universally quantified over it, and concrete
  evaluations instantiate it with an explicit rational function.
* Machine floats `float('inf')` used as initial best-distance / best-time are
  `WithTop ℚ` with `⊤` for infinity.
-/

/-- A Python value that is either `None` or a node identifier string. -/
abbrev Val := Option String

/-- Result of `calculate_optimal_route`: Python `None` or a list of nodes. -/
abbrev Route := Option (List String)

/-- Coordinates (latitude, longitude) as exact rationals. -/
abbrev Coord := ℚ × ℚ

/-- Outcome of running a piece of Python code: a value, a raised exception
(`KeyError` in this embedding), or fuel exhaustion (model artifact only). -/
inductive PyResult (α : Type) where
  | ok (a : α)
  | exn
  | fuelout
deriving DecidableEq, Repr

/-- Python dict lookup `d[k]` as an association-list search; `none` means the
key is missing, in which case the Python code would raise `KeyError`. -/
def dictGet {α β : Type} [DecidableEq α] : List (α × β) → α → Option β
  | [], _ => none
  | (k, v) :: rest, a => if k = a then some v else dictGet rest a

/-- Python dict assignment `d[k] = v`: replace the binding if the key exists,
otherwise append it (insertion order, as CPython does). -/
def dictSet {α β : Type} [DecidableEq α] : List (α × β) → α → β → List (α × β)
  | [], a, b => [(a, b)]
  | (k, v) :: rest, a, b =>
      if k = a then (a, b) :: rest else (k, v) :: dictSet rest a b

/-- The class attribute `graph` of `RideSharingSystem`: adjacency lists with
positive integer edge weights, exactly the literal in the source. -/
def graph : List (String × List (String × ℕ)) :=
  [ ("A", [("B", 1), ("C", 4)]),
    ("B", [("A", 1), ("C", 2), ("D", 5)]),
    ("C", [("A", 4), ("B", 2), ("D", 1)]),
    ("D", [("B", 5), ("C", 1)]) ]

/-- The class attribute `location_mapping`: node identifier to coordinates. -/
def location_mapping : List (String × Coord) :=
  [ ("A", (48.8566, 2.3522)),
    ("B", (40.7128, -74.0060)),
    ("C", (51.5074, -0.1278)),
    ("D", (52.5200, 13.4050)) ]

/-- The node identifiers of the configured graph, in insertion order. -/
def graphNodes : List String := graph.map (·.1)

/-- `AVERAGE_SPEED = 30.0` km/h. -/
def AVERAGE_SPEED : ℚ := 30

/-- `MAX_DISTANCE = float('inf')`. -/
def MAX_DISTANCE : WithTop ℚ := ⊤

/-- The lookup loop of `get_coordinates`: scan the mapping for an entry whose
coordinates equal the address exactly. -/
def getCoordinatesGo : List (String × Coord) → Coord → Val
  | [], _ => none
  | (ident, coords) :: rest, a =>
      if coords = a then some ident else getCoordinatesGo rest a

/-- `get_coordinates(address)`: scan `location_mapping` for an entry whose
coordinates equal the address exactly; return its node identifier, else
`None`. -/
def get_coordinates (address : Coord) : Val :=
  getCoordinatesGo location_mapping address

/-- `calculate_estimated_arrival_time(distance)`:
`(distance / AVERAGE_SPEED) * 60` minutes. -/
def calculate_estimated_arrival_time (distance : ℚ) : ℚ :=
  distance / AVERAGE_SPEED * 60

/-- Lexicographic comparison of character lists by code point — Python's
`<` on strings, restricted to the ASCII node identifiers in use. -/
def charListLt : List Char → List Char → Bool
  | [], [] => false
  | [], _ :: _ => true
  | _ :: _, [] => false
  | c :: cs, d :: ds =>
      if c.val.toNat < d.val.toNat then true
      else if d.val.toNat < c.val.toNat then false
      else charListLt cs ds

/-- Python string comparison `s < t`. -/
def strLt (s t : String) : Bool := charListLt s.data t.data

/-- Comparison of heap entries `(distance, node)` as Python compares the
tuples pushed by `heapq`: by distance first, then by node.  A comparison of
`None` against a string would raise `TypeError` in Python; such a mixed queue
is unreachable (a `None` entry only ever occurs alone), so the `none` cases
here are arbitrary. -/
def pairLt : ℕ × Val → ℕ × Val → Bool
  | (d₁, v₁), (d₂, v₂) =>
    if d₁ ≠ d₂ then d₁ < d₂
    else match v₁, v₂ with
      | none, _ => true
      | some _, none => false
      | some s₁, some s₂ => strLt s₁ s₂

/-- `heapq.heappop`: remove and return the minimum entry of the queue under
the tuple order.  Entries are pairwise distinct in every reachable queue, so
taking the leftmost minimum is exact. -/
def popMin : List (ℕ × Val) → Option ((ℕ × Val) × List (ℕ × Val))
  | [] => none
  | x :: xs =>
      let m := xs.foldl (fun b y => if pairLt y b then y else b) x
      some (m, (x :: xs).erase m)

/-- Path reconstruction: `path = []; while current_node: path.append(...);
current_node = predecessors[current_node]` followed by `return path[::-1]`.
Prepending into the accumulator builds the reversed list directly.  A missing
predecessor key raises `KeyError`. -/
def buildPath : ℕ → List (Val × Val) → Val → List String → PyResult Route
  | 0, _, _, _ => .fuelout
  | fuel + 1, predecessors, current, acc =>
      match current with
      | none => .ok (some acc)
      | some s =>
          if s = "" then .ok (some acc)
          else
            match dictGet predecessors (some s) with
            | none => .exn
            | some p => buildPath fuel predecessors p (s :: acc)

/-- The neighbor loop of `calculate_optimal_route`: for each
`(neighbor, weight)` of the current node, if `current_distance + weight`
improves on `distances[neighbor]`, update distances and predecessors and push
the new entry.  A missing `distances` key raises `KeyError`. -/
def relaxNeighbors (currentDistance : ℕ) (currentNode : Val) :
    List (String × ℕ) → List (Val × WithTop ℕ) → List (Val × Val) →
    List (ℕ × Val) →
    PyResult (List (Val × WithTop ℕ) × List (Val × Val) × List (ℕ × Val))
  | [], distances, predecessors, queue => .ok (distances, predecessors, queue)
  | (neighbor, weight) :: rest, distances, predecessors, queue =>
      let distance := currentDistance + weight
      match dictGet distances (some neighbor) with
      | none => .exn
      | some dn =>
          if (distance : WithTop ℕ) < dn then
            relaxNeighbors currentDistance currentNode rest
              (dictSet distances (some neighbor) (distance : WithTop ℕ))
              (dictSet predecessors (some neighbor) currentNode)
              (queue ++ [(distance, some neighbor)])
          else
            relaxNeighbors currentDistance currentNode rest
              distances predecessors queue

/-- Lookup `self.graph[v]` where `v` is the Python value held in
`current_node` (a string, or `None` for an unresolved location); a missing
key — in particular `None` — raises `KeyError`. -/
def dictGetGraph (v : Val) : Option (List (String × ℕ)) :=
  match v with
  | none => none
  | some s => dictGet graph s

/-- The `while queue:` loop of `calculate_optimal_route`. -/
def dijkstraLoop : ℕ → List (ℕ × Val) → List (Val × WithTop ℕ) →
    List (Val × Val) → Val → PyResult Route
  | 0, _, _, _, _ => .fuelout
  | fuel + 1, queue, distances, predecessors, endNode =>
      match popMin queue with
      | none => .ok none
      | some ((currentDistance, currentNode), rest) =>
          if currentNode = endNode then
            buildPath (fuel + 1) predecessors currentNode []
          else
            match dictGet distances currentNode with
            | none => .exn
            | some dc =>
                if (currentDistance : WithTop ℕ) > dc then
                  dijkstraLoop fuel rest distances predecessors endNode
                else
                  match dictGetGraph currentNode with
                  | none => .exn
                  | some neighbors =>
                      match relaxNeighbors currentDistance currentNode
                          neighbors distances predecessors rest with
                      | .exn => .exn
                      | .fuelout => .fuelout
                      | .ok (distances', predecessors', queue') =>
                          dijkstraLoop fuel queue' distances' predecessors'
                            endNode

/-- `calculate_optimal_route(start_location, end_location)`: initialize
distances to infinity (0 for the start, inserted if absent), predecessors to
`None` for every graph node, seed the priority queue with `(0, start)`, and
run the loop.  Fuel 1000 is far beyond what the 4-node graph can consume. -/
def calculate_optimal_route (start_location end_location : Val) :
    PyResult Route :=
  let distances : List (Val × WithTop ℕ) :=
    graphNodes.map (fun n => ((some n : Val), (⊤ : WithTop ℕ)))
  let distances := dictSet distances start_location 0
  let predecessors : List (Val × Val) :=
    graphNodes.map (fun n => ((some n : Val), (none : Val)))
  dijkstraLoop 1000 [(0, start_location)] distances predecessors end_location

/-- A passenger ride request (`passenger.py`, class `PassengerRequest`).  The
`uuid` models the unique identifier generated at construction; the passenger
object is represented by their name. -/
structure Request where
  passenger : String
  pickup_address : Coord
  dropoff_address : Coord
  is_canceled : Bool
  uuid : ℕ
deriving DecidableEq, Repr

/-- A driver (`driver.py`, class `Driver`).  `current_passenger` and
`current_route` are the attributes `assign_ride` sets; `none` models the
attribute not having been set yet. -/
structure Driver where
  name : String
  location : Coord
  is_available : Bool
  current_passenger : Option Request
  current_route : Option Route
deriving DecidableEq, Repr

/-- The spec's ephemeral Assignment tuple, assembled from the variables of
`process_passenger_requests` at the point where `assign_ride` is called:
the selected driver (by index into the driver list), the request, the value
of the `optimal_route` variable, and the best distance / estimated arrival
time. -/
structure Assignment where
  driverIdx : ℕ
  request : Request
  route : Route
  distance : WithTop ℚ
  estimated_arrival_time : WithTop ℚ
deriving DecidableEq, Repr

/-- The mutable state of `RideSharingSystem`: the pending-request queue and
the driver list. -/
structure SystemState where
  queue : List Request
  drivers : List Driver
deriving DecidableEq, Repr

/-- List indexing (the identity of a Python driver object is modelled by its
index in the driver list). -/
def getIdx {α : Type} : List α → ℕ → Option α
  | [], _ => none
  | a :: _, 0 => some a
  | _ :: rest, n + 1 => getIdx rest n

/-- Replace the element at an index (in-place mutation of a list member). -/
def updateAt {α : Type} : List α → ℕ → α → List α
  | [], _, _ => []
  | _ :: rest, 0, b => b :: rest
  | a :: rest, n + 1, b => a :: updateAt rest n b

/-- The scan of `find_available_drivers`, carrying the index of each driver
so that the selected driver object can be updated in the state later. -/
def findAvailableGo (dist : Coord → Coord → ℚ) (passenger_location : Coord) :
    ℕ → List Driver → List (ℕ × Driver)
  | _, [] => []
  | i, driver :: rest =>
      if driver.is_available = true ∧
          (dist driver.location passenger_location : WithTop ℚ) ≤
            MAX_DISTANCE then
        (i, driver) :: findAvailableGo dist passenger_location (i + 1) rest
      else findAvailableGo dist passenger_location (i + 1) rest

/-- `find_available_drivers(passenger_location)`: all drivers that are
available and within `MAX_DISTANCE` (infinity, so the distance test always
passes — it is still evaluated, as in the source). -/
def find_available_drivers (dist : Coord → Coord → ℚ) (drivers : List Driver)
    (passenger_location : Coord) : List (ℕ × Driver) :=
  findAvailableGo dist passenger_location 0 drivers

/-- `handle_unavailable_driver(passenger)`: append the request to the tail of
the pending queue. -/
def handle_unavailable_driver (st : SystemState) (passenger : Request) :
    SystemState :=
  { st with queue := st.queue ++ [passenger] }

/-- `assign_ride(driver, passenger, optimal_route, distance)`: if the driver
is available, mark them unavailable and attach the passenger and route to the
driver record; otherwise fall back to `handle_unavailable_driver`. -/
def assign_ride (st : SystemState) (i : ℕ) (passenger : Request)
    (optimal_route : Route) : SystemState :=
  match getIdx st.drivers i with
  | none => st
  | some driver =>
      if driver.is_available then
        { st with
            drivers := updateAt st.drivers i
              { driver with
                  is_available := false,
                  current_passenger := some passenger,
                  current_route := some optimal_route } }
      else handle_unavailable_driver st passenger

/-- Python truthiness of an `optimal_route` value: `None` and the empty list
are falsy (`if not optimal_route`). -/
def routeFalsy : Route → Bool
  | none => true
  | some [] => true
  | some (_ :: _) => false

/-- The loop-local variables of the candidate loop in
`process_passenger_requests`: `best_driver` (with its index),
`best_distance`, `best_estimated_arrival_time` (both start at `float('inf')`)
and the loop variable `optimal_route` (`none` while still unbound). -/
structure LoopState where
  best : Option (ℕ × Driver)
  best_distance : WithTop ℚ
  best_estimated_arrival_time : WithTop ℚ
  optimal_route : Option Route
deriving DecidableEq, Repr

/-- Initial values of the candidate-loop variables. -/
def initLoopState : LoopState :=
  { best := none, best_distance := ⊤, best_estimated_arrival_time := ⊤,
    optimal_route := none }

/-- The `for driver in available_drivers:` loop of
`process_passenger_requests`: compute the candidate's route; if it is falsy,
requeue the whole request (`handle_unavailable_driver`) and continue;
otherwise compute pickup distance and estimated arrival time and update the
running best on a strict improvement (or an arrival-time tie with a strictly
smaller distance). -/
def evalCandidates (dist : Coord → Coord → ℚ) (passenger_request : Request)
    (pnode : Val) :
    List (ℕ × Driver) → LoopState → SystemState →
    PyResult (LoopState × SystemState)
  | [], s, st => .ok (s, st)
  | (i, driver) :: rest, s, st =>
      let driver_grid_location := get_coordinates driver.location
      match calculate_optimal_route driver_grid_location pnode with
      | .exn => .exn
      | .fuelout => .fuelout
      | .ok r =>
          let s := { s with optimal_route := some r }
          if routeFalsy r then
            evalCandidates dist passenger_request pnode rest s
              (handle_unavailable_driver st passenger_request)
          else
            let distance_to_pickup :=
              dist driver.location passenger_request.pickup_address
            let t := calculate_estimated_arrival_time distance_to_pickup
            if (t : WithTop ℚ) < s.best_estimated_arrival_time ∨
                ((t : WithTop ℚ) = s.best_estimated_arrival_time ∧
                  (distance_to_pickup : WithTop ℚ) < s.best_distance) then
              evalCandidates dist passenger_request pnode rest
                { s with
                    best := some (i, driver),
                    best_distance := (distance_to_pickup : WithTop ℚ),
                    best_estimated_arrival_time := (t : WithTop ℚ) } st
            else evalCandidates dist passenger_request pnode rest s st

/-- One iteration of the `while self.passenger_request_queue:` loop of
`process_passenger_requests` (the spec's `process_one`): pop the head; drop
it if canceled; otherwise evaluate all available candidates and either commit
the best one via `assign_ride` or requeue the request.  An empty queue leaves
the state unchanged (the loop body is not entered). -/
def processOne (dist : Coord → Coord → ℚ) (st : SystemState) :
    PyResult (Option Assignment × SystemState) :=
  match st.queue with
  | [] => .ok (none, st)
  | passenger_request :: t =>
      let st1 : SystemState := { st with queue := t }
      if passenger_request.is_canceled then .ok (none, st1)
      else
        let available_drivers :=
          find_available_drivers dist st1.drivers
            passenger_request.pickup_address
        let pnode := get_coordinates passenger_request.pickup_address
        match evalCandidates dist passenger_request pnode available_drivers
            initLoopState st1 with
        | .exn => .exn
        | .fuelout => .fuelout
        | .ok (s, st2) =>
            match s.best with
            | some (i, _) =>
                let route : Route := (s.optimal_route).getD none
                let a : Assignment :=
                  { driverIdx := i, request := passenger_request,
                    route := route, distance := s.best_distance,
                    estimated_arrival_time := s.best_estimated_arrival_time }
                .ok (some a, assign_ride st2 i passenger_request route)
            | none => .ok (none, handle_unavailable_driver st2 passenger_request)

/-- `process_passenger_requests` (the spec's `process_all`): repeat
`processOne` until the queue is empty.  The outer `Option` is drain fuel:
`none` means the `while` loop is still running after `fuel` iterations. -/
def process_passenger_requests (dist : Coord → Coord → ℚ) :
    ℕ → SystemState → Option (PyResult SystemState)
  | 0, st => if st.queue = [] then some (.ok st) else none
  | fuel + 1, st =>
      if st.queue = [] then some (.ok st)
      else
        match processOne dist st with
        | .exn => some .exn
        | .fuelout => some .fuelout
        | .ok (_, st') => process_passenger_requests dist fuel st'

/-- `cancel_request` / `PassengerRequest.cancel`: set the canceled flag.  In
Python this mutates the shared request object, so every queue entry aliasing
it changes; the state-level operation below applies it to all queued copies
with the given uuid. -/
def cancelRequest (r : Request) : Request :=
  { r with is_canceled := true }

/-- Cancellation at the state level: flip `is_canceled` on every queued copy
of the request with the given uuid (all copies alias one Python object). -/
def cancelInState (st : SystemState) (u : ℕ) : SystemState :=
  { st with
      queue := st.queue.map (fun r => if r.uuid = u then cancelRequest r else r) }

/-- `update_driver_status(driver, is_available)`: externally flip a driver's
availability flag (not invoked by the dispatch engine itself). -/
def update_driver_status (st : SystemState) (i : ℕ) (is_avail : Bool) :
    SystemState :=
  match getIdx st.drivers i with
  | none => st
  | some driver =>
      { st with drivers := updateAt st.drivers i { driver with is_available := is_avail } }

/-- Total weight of a path in `graph` (used to compare candidate paths in the
sample-graph claims); `none` if some step is not an edge. -/
def pathWeight : List String → Option ℕ
  | [] => some 0
  | [_] => some 0
  | a :: b :: rest =>
      match dictGet graph a with
      | none => none
      | some nbrs =>
          match dictGet nbrs b with
          | none => none
          | some w => (pathWeight (b :: rest)).map (w + ·)

/-- The assignment produced by a dispatch-cycle result, if any. -/
def resultAssignment (r : PyResult (Option Assignment × SystemState)) :
    Option Assignment :=
  match r with
  | .ok (a, _) => a
  | _ => none

/-- The post-state of a dispatch-cycle result, if it completed normally. -/
def resultState (r : PyResult (Option Assignment × SystemState)) :
    Option SystemState :=
  match r with
  | .ok (_, st) => some st
  | _ => none

/-- The configured coordinates of node A (Paris). -/
def locA : Coord := (48.8566, 2.3522)

/-- The configured coordinates of node B (New York). -/
def locB : Coord := (40.7128, -74.0060)

/-- The configured coordinates of node C (London). -/
def locC : Coord := (51.5074, -0.1278)

/-- The configured coordinates of node D (Berlin). -/
def locD : Coord := (52.5200, 13.4050)

/-- A coordinate with no entry in `location_mapping`. -/
def locX : Coord := (0, 0)

/-- A concrete instantiation of the abstracted `calculate_distance`
parameter, used only to evaluate the dispatch engine on explicit inputs (the
source's haversine formula is transcendental float arithmetic; any
rational-valued stand-in exercises the same control flow).  Squared Euclidean
distance in coordinate space keeps the same qualitative order of closeness
for the configured city coordinates: C (London) is nearer to A (Paris) than
B (New York) is, as with great-circle distance. -/
def testDist : Coord → Coord → ℚ :=
  fun a b => (a.1 - b.1) * (a.1 - b.1) + (a.2 - b.2) * (a.2 - b.2)

/-- A request with pickup at the mapped coordinate of node A. -/
def reqA : Request :=
  { passenger := "John", pickup_address := locA, dropoff_address := locD,
    is_canceled := false, uuid := 1 }

/-- A request with an unmapped pickup coordinate. -/
def reqX : Request :=
  { passenger := "Jane", pickup_address := locX, dropoff_address := locD,
    is_canceled := false, uuid := 2 }

/-- A fresh driver as `Driver.__init__` creates one. -/
def mkDriver (n : String) (l : Coord) : Driver :=
  { name := n, location := l, is_available := true,
    current_passenger := none, current_route := none }

/-- Two routable candidates: driver 0 at node C (nearest the pickup at A),
driver 1 at node B (farther away, iterated last). -/
def st1 : SystemState :=
  { queue := [reqA], drivers := [mkDriver "d0" locC, mkDriver "d1" locB] }

/-- One request whose pickup is mapped, one available driver whose coordinate
has no entry in `location_mapping`. -/
def st9 : SystemState :=
  { queue := [reqA], drivers := [mkDriver "dx" locX] }

/-- One request whose pickup coordinate is unmapped, two available drivers at
mapped coordinates. -/
def st10 : SystemState :=
  { queue := [reqX], drivers := [mkDriver "d0" locB, mkDriver "d1" locC] }

/-- One non-canceled request and no drivers at all: the request can never be
matched. -/
def st4 : SystemState := { queue := [reqA], drivers := [] }

/-- A canceled request at the head of the queue. -/
def st8 : SystemState :=
  { queue := [cancelRequest reqA], drivers := [mkDriver "d0" locB] }

/-- `get_coordinates` resolves node A's configured coordinates to `"A"`. -/
theorem get_coordinates_locA : get_coordinates locA = some "A" := by
  simp [get_coordinates, getCoordinatesGo, location_mapping, locA]

/-- `get_coordinates` resolves node B's configured coordinates to `"B"`. -/
theorem get_coordinates_locB : get_coordinates locB = some "B" := by
  simp [get_coordinates, getCoordinatesGo, location_mapping, locB]
  norm_num

/-- `get_coordinates` resolves node C's configured coordinates to `"C"`. -/
theorem get_coordinates_locC : get_coordinates locC = some "C" := by
  simp [get_coordinates, getCoordinatesGo, location_mapping, locC]
  norm_num

/-- `get_coordinates` yields `None` on the unmapped coordinate. -/
theorem get_coordinates_locX : get_coordinates locX = none := by
  simp [get_coordinates, getCoordinatesGo, location_mapping, locX]
  norm_num

/-- The shortest path from node C to node A on the configured graph. -/
theorem route_C_A :
    calculate_optimal_route (some "C") (some "A") =
      .ok (some ["C", "B", "A"]) := by decide

/-- The shortest path from node B to node A on the configured graph. -/
theorem route_B_A :
    calculate_optimal_route (some "B") (some "A") = .ok (some ["B", "A"]) := by
  decide

/-- Route computation from an unresolved (`None`) start towards node A
raises `KeyError` at `self.graph[None]`. -/
theorem route_none_A : calculate_optimal_route none (some "A") = .exn := by
  decide

/-- Under the stand-in distance, the candidate at B does not beat the
candidate at C on estimated arrival time to pickup A. -/
theorem eta_B_not_lt_eta_C :
    ¬(calculate_estimated_arrival_time (testDist locB locA) <
      calculate_estimated_arrival_time (testDist locC locA)) := by
  norm_num [calculate_estimated_arrival_time, testDist, AVERAGE_SPEED, locA,
    locB, locC]

/-- Under the stand-in distance, the candidates at B and C do not tie on
estimated arrival time to pickup A. -/
theorem eta_B_ne_eta_C :
    ¬(calculate_estimated_arrival_time (testDist locB locA) =
      calculate_estimated_arrival_time (testDist locC locA)) := by
  norm_num [calculate_estimated_arrival_time, testDist, AVERAGE_SPEED, locA,
    locB, locC]

/-- C3: on the configured sample graph, `shortest_path(A, D)` is exactly
`[A, B, C, D]`, of total weight 4, while the alternatives `[A, C, D]` and
`[A, B, D]` weigh 5 and 6. -/
theorem C3_shortest_path_A_D :
    calculate_optimal_route (some "A") (some "D") =
        .ok (some ["A", "B", "C", "D"]) ∧
    pathWeight ["A", "B", "C", "D"] = some 4 ∧
    pathWeight ["A", "C", "D"] = some 5 ∧
    pathWeight ["A", "B", "D"] = some 6 := by
  refine ⟨by decide, by decide, by decide, by decide⟩

/-- C9: on a state whose single available driver sits at a coordinate with no
entry in `location_mapping` (so `get_coordinates` yields `None`), the
dispatch cycle raises an uncaught `KeyError` (from `self.graph[None]`)
instead of excluding the candidate and completing. -/
theorem C9_unmapped_driver_location_raises :
    get_coordinates locX = none ∧
    get_coordinates reqA.pickup_address = some "A" ∧
    processOne testDist st9 = .exn := by
  refine ⟨get_coordinates_locX, by simpa [reqA] using get_coordinates_locA, ?_⟩
  simp [processOne, st9, reqA, mkDriver, find_available_drivers,
    findAvailableGo, evalCandidates, MAX_DISTANCE, get_coordinates_locX,
    get_coordinates_locA, route_none_A]

/-- C1 (failing input): with driver 0 at node C (the nearest, hence selected)
and driver 1 at node B iterated last, the committed assignment carries
`["B", "A"]` — the route computed for candidate driver 1 — although the
shortest path from the selected driver's node C to the pickup node A is
`["C", "B", "A"]`.  The route attached to the committed driver is the stale
`optimal_route` loop variable, not the selected driver's route. -/
theorem C1_assignment_route_is_last_candidates :
    (resultAssignment (processOne testDist st1)).map
        (fun a => (a.driverIdx, a.route)) = some (0, some ["B", "A"]) ∧
    getIdx st1.drivers 0 = some (mkDriver "d0" locC) ∧
    get_coordinates locC = some "C" ∧
    get_coordinates reqA.pickup_address = some "A" ∧
    calculate_optimal_route (some "C") (some "A") =
        .ok (some ["C", "B", "A"]) ∧
    calculate_optimal_route (some "B") (some "A") = .ok (some ["B", "A"]) ∧
    (some ["B", "A"] : Route) ≠ some ["C", "B", "A"] := by
  refine ⟨?_, rfl, get_coordinates_locC,
    by simpa [reqA] using get_coordinates_locA, route_C_A, route_B_A,
    by decide⟩
  simp [processOne, st1, reqA, mkDriver, find_available_drivers,
    findAvailableGo, evalCandidates, MAX_DISTANCE, get_coordinates_locA,
    get_coordinates_locB, get_coordinates_locC, route_C_A, route_B_A,
    routeFalsy, initLoopState, resultAssignment, WithTop.coe_lt_top,
    WithTop.coe_ne_top, WithTop.coe_lt_coe, WithTop.coe_eq_coe,
    eta_B_not_lt_eta_C, eta_B_ne_eta_C]

/-- C5 (counterexample): when the start node is not a node of the graph, the
search does not return Empty — popping the start immediately leads to the
lookup `self.graph[start]`, which raises `KeyError`. -/
theorem C5_counterexample_unknown_start_raises :
    dictGet graph "E" = none ∧
    calculate_optimal_route (some "E") (some "D") = .exn ∧
    (.exn : PyResult Route) ≠ .ok none := by
  refine ⟨by decide, by decide, by decide⟩

/-- C8: a canceled request at the head of the queue is dequeued and dropped:
no assignment is produced, the request is not re-enqueued, and the driver
list is untouched. -/
theorem C8_canceled_request_dropped (dist : Coord → Coord → ℚ)
    (st : SystemState) (r : Request) (t : List Request)
    (hq : st.queue = r :: t) (hc : r.is_canceled = true) :
    processOne dist st = .ok (none, { queue := t, drivers := st.drivers }) := by
  cases st with
  | mk q drivers =>
      simp only at hq
      subst hq
      simp [processOne, hc]

/-- Witness for C8 at a concrete canceled request. -/
theorem C8_witness :
    processOne testDist st8 =
      .ok (none, { queue := [], drivers := st8.drivers }) :=
  C8_canceled_request_dropped testDist st8 (cancelRequest reqA) [] rfl rfl

/-- C6: `assign_ride` on an existing driver record: if the driver is
available, it marks them unavailable and attaches the passenger and the route
to the driver record, leaving the queue alone; if the driver is not
available, it leaves every driver record unchanged and appends the request
back to the queue instead of failing. -/
theorem C6_assign_ride_commit (st : SystemState) (i : ℕ) (d : Driver)
    (r : Request) (route : Route) (hd : getIdx st.drivers i = some d) :
    (d.is_available = true →
      assign_ride st i r route =
        { st with
            drivers := updateAt st.drivers i
              { d with
                  is_available := false,
                  current_passenger := some r,
                  current_route := some route } }) ∧
    (d.is_available = false →
      assign_ride st i r route = { st with queue := st.queue ++ [r] }) := by
  constructor
  · intro h
    simp [assign_ride, hd, h]
  · intro h
    simp [assign_ride, hd, h, handle_unavailable_driver]

/-- Witness for C6: commit on an available driver flips the record, and on an
unavailable driver only requeues. -/
theorem C6_witness :
    (assign_ride st1 0 reqA (some ["C", "B", "A"]) =
      { st1 with
          drivers := updateAt st1.drivers 0
            { mkDriver "d0" locC with
                is_available := false,
                current_passenger := some reqA,
                current_route := some (some ["C", "B", "A"]) } }) ∧
    (assign_ride
        { st1 with drivers := [{ mkDriver "d0" locC with is_available := false }] }
        0 reqA (some ["C", "B", "A"]) =
      { queue := st1.queue ++ [reqA],
        drivers := [{ mkDriver "d0" locC with is_available := false }] }) :=
  ⟨(C6_assign_ride_commit st1 0 (mkDriver "d0" locC) reqA
      (some ["C", "B", "A"]) rfl).1 rfl,
   (C6_assign_ride_commit
      { st1 with drivers := [{ mkDriver "d0" locC with is_available := false }] }
      0 ({ mkDriver "d0" locC with is_available := false }) reqA
      (some ["C", "B", "A"]) rfl).2 rfl⟩

/-- The running minimum of a fold over heap entries is one of the entries. -/
theorem foldlMin_mem (xs : List (ℕ × Val)) (x : ℕ × Val) :
    xs.foldl (fun b y => if pairLt y b then y else b) x ∈ x :: xs := by
  induction xs generalizing x with
  | nil => simp
  | cons y ys ih =>
      simp only [List.foldl_cons]
      by_cases hp : pairLt y x = true
      · rw [if_pos hp]
        rcases List.mem_cons.mp (ih y) with h | h
        · rw [h]; simp
        · simp [h]
      · rw [if_neg hp]
        rcases List.mem_cons.mp (ih x) with h | h
        · rw [h]; simp
        · simp [h]

/-- `popMin` returns a queue member, and the remaining queue is contained in
the original one. -/
theorem popMin_mem (q : List (ℕ × Val)) (m : ℕ × Val)
    (rest : List (ℕ × Val)) (h : popMin q = some (m, rest)) :
    m ∈ q ∧ ∀ x ∈ rest, x ∈ q := by
  cases q with
  | nil => simp [popMin] at h
  | cons x xs =>
      simp only [popMin, Option.some.injEq, Prod.mk.injEq] at h
      obtain ⟨hm, hrest⟩ := h
      constructor
      · rw [← hm]; exact foldlMin_mem xs x
      · intro z hz
        rw [← hrest] at hz
        exact List.mem_of_mem_erase hz

/-- Every entry of the queue produced by the neighbor-relaxation loop either
was in the incoming queue or carries one of the relaxed neighbors. -/
theorem relaxNeighbors_queue_mem (cd : ℕ) (cn : Val) :
    ∀ (nbrs : List (String × ℕ)) (dists : List (Val × WithTop ℕ))
      (preds : List (Val × Val)) (q0 : List (ℕ × Val)) dists2 preds2 q2,
      relaxNeighbors cd cn nbrs dists preds q0 = .ok (dists2, preds2, q2) →
      ∀ x ∈ q2, x ∈ q0 ∨ ∃ nb w, (nb, w) ∈ nbrs ∧ x.2 = some nb := by
  intro nbrs
  induction nbrs with
  | nil =>
      intro dists preds q0 dists2 preds2 q2 h x hx
      simp only [relaxNeighbors, PyResult.ok.injEq, Prod.mk.injEq] at h
      exact Or.inl (h.2.2 ▸ hx)
  | cons p rest ih =>
      intro dists preds q0 dists2 preds2 q2 h x hx
      obtain ⟨nb, w⟩ := p
      simp only [relaxNeighbors] at h
      split at h
      · exact absurd h (by simp)
      · split at h
        · rcases ih _ _ _ _ _ _ h x hx with hin | ⟨nb2, w2, hmem, hx2⟩
          · rcases List.mem_append.mp hin with hin | hin
            · exact Or.inl hin
            · refine Or.inr ⟨nb, w, List.mem_cons_self _ _, ?_⟩
              simp only [List.mem_singleton] at hin
              rw [hin]
          · exact Or.inr ⟨nb2, w2, List.mem_cons.mpr (Or.inr hmem), hx2⟩
        · rcases ih _ _ _ _ _ _ h x hx with hin | ⟨nb2, w2, hmem, hx2⟩
          · exact Or.inl hin
          · exact Or.inr ⟨nb2, w2, List.mem_cons.mpr (Or.inr hmem), hx2⟩

/-- Every neighbor referenced by the configured adjacency lists is itself a
node of the graph. -/
theorem graph_neighbors_closed :
    ∀ n ∈ graphNodes, ∀ pr ∈ (dictGet graph n).getD [], pr.1 ∈ graphNodes := by
  decide

/-- The Dijkstra loop only inspects the end node through equality tests with
popped queue entries, which are always graph nodes here; two end values that
both differ from every graph node are therefore interchangeable. -/
theorem dijkstraLoop_cong :
    ∀ (fuel : ℕ) (q : List (ℕ × Val)) (dists : List (Val × WithTop ℕ))
      (preds : List (Val × Val)) (e₁ e₂ : Val),
      (∀ x ∈ q, ∃ n, x.2 = some n ∧ n ∈ graphNodes) →
      (∀ n ∈ graphNodes, (some n : Val) ≠ e₁) →
      (∀ n ∈ graphNodes, (some n : Val) ≠ e₂) →
      dijkstraLoop fuel q dists preds e₁ = dijkstraLoop fuel q dists preds e₂ := by
  intro fuel
  induction fuel with
  | zero => intro q dists preds e₁ e₂ _ _ _; rfl
  | succ fuel ih =>
      intro q dists preds e₁ e₂ hq h₁ h₂
      simp only [dijkstraLoop]
      cases hpop : popMin q with
      | none => rfl
      | some pr =>
          obtain ⟨⟨cd, cn⟩, rest⟩ := pr
          obtain ⟨hm, hsub⟩ := popMin_mem q _ _ hpop
          obtain ⟨n, hcn, hn⟩ := hq _ hm
          have hcn2 : cn = some n := hcn
          have hne₁ : cn ≠ e₁ := by rw [hcn2]; exact h₁ n hn
          have hne₂ : cn ≠ e₂ := by rw [hcn2]; exact h₂ n hn
          simp only [if_neg hne₁, if_neg hne₂]
          split
          · rfl
          rename_i dc hdist
          by_cases hstale : ((cd : WithTop ℕ) > dc)
          · simp only [if_pos hstale]
            exact ih rest dists preds e₁ e₂
              (fun x hx => hq x (hsub x hx)) h₁ h₂
          · simp only [if_neg hstale]
            split
            · rfl
            rename_i nbrs hg
            split
            · rfl
            · rfl
            rename_i dists2 preds2 q2 hrelax
            refine ih q2 dists2 preds2 e₁ e₂ ?_ h₁ h₂
            intro x hx
            rcases relaxNeighbors_queue_mem cd cn nbrs dists preds
                rest dists2 preds2 q2 hrelax x hx with
              hin | ⟨nb, w, hmem, hx2⟩
            · exact hq x (hsub x hin)
            · refine ⟨nb, hx2, ?_⟩
              have hgn : dictGet graph n = some nbrs := by
                rw [hcn2] at hg
                simpa [dictGetGraph] using hg
              have hcl := graph_neighbors_closed n hn (nb, w)
              rw [hgn] at hcl
              exact hcl hmem

/-- C5 (amended): whenever the priority queue empties before the end node is
reached, `calculate_optimal_route` returns `None` without raising; with the
configured (connected) graph this is exactly the runs whose end value is not
a graph node — an unknown end identifier or an unresolved (`None`) end — for
any start node of the graph.  A start that is not a graph node instead raises
`KeyError`. -/
theorem C5_amended_unreachable_end_returns_none (e : Val)
    (he : ∀ n ∈ graphNodes, (some n : Val) ≠ e) :
    ∀ s ∈ graphNodes, calculate_optimal_route (some s) e = .ok none := by
  intro s hs
  simp only [calculate_optimal_route]
  rw [dijkstraLoop_cong 1000 _ _ _ e (some "Z")
    (fun x hx => by
      simp only [List.mem_singleton] at hx
      exact ⟨s, by simp [hx], hs⟩)
    he (by decide)]
  fin_cases hs <;> decide

/-- Witness for C5's amended claim at a concrete unknown end node. -/
theorem C5_witness :
    calculate_optimal_route (some "A") (some "E") = .ok none :=
  C5_amended_unreachable_end_returns_none (some "E") (by decide) "A"
    (by decide)

/-- A dispatch cycle whose head request is canceled just drops it. -/
theorem processOne_canceled (dist : Coord → Coord → ℚ) (st : SystemState)
    (r : Request) (t : List Request) (hq : st.queue = r :: t)
    (hc : r.is_canceled = true) :
    processOne dist st = .ok (none, { queue := t, drivers := st.drivers }) := by
  cases st with
  | mk q drivers =>
      simp only at hq
      subst hq
      simp [processOne, hc]

/-- A dispatch cycle with an empty driver registry requeues a non-canceled
head request at the tail and changes nothing else. -/
theorem processOne_no_drivers (dist : Coord → Coord → ℚ) (st : SystemState)
    (r : Request) (t : List Request) (hq : st.queue = r :: t)
    (hd : st.drivers = []) (hc : r.is_canceled = false) :
    processOne dist st = .ok (none, { queue := t ++ [r], drivers := [] }) := by
  cases st with
  | mk q drivers =>
      simp only at hq hd
      subst hq
      subst hd
      simp [processOne, hc, find_available_drivers, findAvailableGo,
        evalCandidates, initLoopState, handle_unavailable_driver]

/-- With no registered drivers and a non-canceled request somewhere in the
queue, the drain loop never terminates: the request is popped and
re-appended on every pass. -/
theorem processAll_no_driver_loops (dist : Coord → Coord → ℚ) :
    ∀ (fuel : ℕ) (st : SystemState), st.drivers = [] →
      (∃ r ∈ st.queue, r.is_canceled = false) →
      process_passenger_requests dist fuel st = none := by
  intro fuel
  induction fuel with
  | zero =>
      intro st hd hex
      obtain ⟨r, hr, hc⟩ := hex
      have hne : st.queue ≠ [] := by
        intro h
        rw [h] at hr
        exact absurd hr (List.not_mem_nil r)
      simp [process_passenger_requests, hne]
  | succ fuel ih =>
      intro st hd hex
      obtain ⟨r, hr, hc⟩ := hex
      cases st with
      | mk q drivers =>
          simp only at hd
          subst hd
          cases q with
          | nil => exact absurd hr (List.not_mem_nil r)
          | cons h t =>
              simp only [process_passenger_requests]
              rw [if_neg (by simp : (h :: t : List Request) ≠ [])]
              cases hcanc : h.is_canceled with
              | true =>
                  simp only [processOne_canceled dist ⟨h :: t, []⟩ h t rfl hcanc]
                  refine ih ⟨t, []⟩ rfl ⟨r, ?_, hc⟩
                  rcases List.mem_cons.mp hr with h1 | h1
                  · exfalso
                    rw [h1] at hc
                    rw [hc] at hcanc
                    exact Bool.false_ne_true hcanc
                  · exact h1
              | false =>
                  simp only [processOne_no_drivers dist ⟨h :: t, []⟩ h t rfl rfl
                    hcanc]
                  refine ih ⟨t ++ [h], []⟩ rfl ?_
                  rcases List.mem_cons.mp hr with h1 | h1
                  · exact ⟨h, by simp, h1 ▸ hc⟩
                  · exact ⟨r, by simp [h1], hc⟩

/-- When every queued request is canceled, the drain loop terminates with an
empty queue within one iteration per request, dropping each in turn and
leaving the driver registry untouched. -/
theorem processAll_all_canceled (dist : Coord → Coord → ℚ) :
    ∀ (fuel : ℕ) (st : SystemState),
      (∀ r ∈ st.queue, r.is_canceled = true) → st.queue.length ≤ fuel →
      process_passenger_requests dist fuel st =
        some (.ok { queue := [], drivers := st.drivers }) := by
  intro fuel
  induction fuel with
  | zero =>
      intro st hall hlen
      have hq : st.queue = [] :=
        List.eq_nil_of_length_eq_zero (Nat.le_zero.mp hlen)
      cases st with
      | mk q drivers =>
          simp only at hq
          subst hq
          simp [process_passenger_requests]
  | succ fuel ih =>
      intro st hall hlen
      cases st with
      | mk q drivers =>
          cases q with
          | nil => simp [process_passenger_requests]
          | cons h t =>
              simp only [process_passenger_requests]
              rw [if_neg (by simp : (h :: t : List Request) ≠ [])]
              have hc : h.is_canceled = true := hall h (by simp)
              simp only [processOne_canceled dist ⟨h :: t, drivers⟩ h t rfl hc]
              have := ih ⟨t, drivers⟩ (fun r hr => hall r (by simp [hr]))
                (by simpa using Nat.le_of_succ_le_succ (by simpa using hlen))
              simpa using this

/-- C4 (counterexample): with one non-canceled request and no drivers — the
request is permanently unroutable — the queue-draining loop does not
terminate even with 1000 iterations of fuel, although the queue never
empties. -/
theorem C4_counterexample_unroutable_loops_forever :
    process_passenger_requests testDist 1000 st4 = none ∧ st4.queue ≠ [] :=
  ⟨processAll_no_driver_loops testDist 1000 st4 rfl ⟨reqA, by simp [st4], rfl⟩,
   by simp [st4]⟩

/-- C4 (amended): the drain loop terminates with an empty queue only in the
no-requeue regimes — e.g. when every enqueued request is canceled, each pass
drops one request and the loop ends with an empty queue and untouched
drivers; but a permanently unroutable request (here: no driver is registered)
is re-enqueued at the tail and retried once per full pass forever, so the
drain never terminates. -/
theorem C4_amended_drain_termination :
    (∀ (dist : Coord → Coord → ℚ) (st : SystemState),
        st.drivers = [] → (∃ r ∈ st.queue, r.is_canceled = false) →
        ∀ fuel, process_passenger_requests dist fuel st = none) ∧
    (∀ (dist : Coord → Coord → ℚ) (st : SystemState) (fuel : ℕ),
        (∀ r ∈ st.queue, r.is_canceled = true) → st.queue.length ≤ fuel →
        process_passenger_requests dist fuel st =
          some (.ok { queue := [], drivers := st.drivers })) :=
  ⟨fun dist st hd hex fuel => processAll_no_driver_loops dist fuel st hd hex,
   fun dist st fuel hall hlen => processAll_all_canceled dist fuel st hall hlen⟩

/-- Witness for C4's amended claim: the concrete no-driver state loops (fuel
5 expires with the queue still nonempty), and the concrete all-canceled state
drains to an empty queue in one step. -/
theorem C4_witness :
    process_passenger_requests testDist 5 st4 = none ∧
    process_passenger_requests testDist 1 st8 =
      some (.ok { queue := [], drivers := st8.drivers }) :=
  ⟨C4_amended_drain_termination.1 testDist st4 rfl ⟨reqA, by simp [st4], rfl⟩ 5,
   C4_amended_drain_termination.2 testDist st8 1
     (by
       intro r hr
       simp only [st8, List.mem_singleton] at hr
       rw [hr]
       rfl)
     (by simp [st8])⟩

/-- Estimated arrival time of a driver towards a pickup coordinate, under a
given distance function (the scoring used by the candidate loop). -/
abbrev etaTo (dist : Coord → Coord → ℚ) (d : Driver) (pickup : Coord) : ℚ :=
  calculate_estimated_arrival_time (dist d.location pickup)

/-- Pickup distance of a driver, under a given distance function. -/
abbrev distTo (dist : Coord → Coord → ℚ) (d : Driver) (pickup : Coord) : ℚ :=
  dist d.location pickup

/-- `db` is optimal among the processed candidates: minimal estimated arrival
time, and minimal pickup distance among arrival-time ties. -/
def MinCand (dist : Coord → Coord → ℚ) (pickup : Coord)
    (processed : List (ℕ × Driver)) (db : Driver) : Prop :=
  ∀ jd ∈ processed,
    etaTo dist db pickup ≤ etaTo dist jd.2 pickup ∧
    (etaTo dist db pickup = etaTo dist jd.2 pickup →
      distTo dist db pickup ≤ distTo dist jd.2 pickup)

/-- Invariant of the candidate loop relative to the already-processed
candidates: either no best has been recorded and nothing was processed (the
running best distance and arrival time still the initial infinities), or the
recorded best is a processed candidate carrying its own distance/time and
optimal among all processed ones. -/
def BestInv (dist : Coord → Coord → ℚ) (pickup : Coord)
    (processed : List (ℕ × Driver)) (s : LoopState) : Prop :=
  (s.best = none →
    processed = [] ∧ s.best_distance = ⊤ ∧
      s.best_estimated_arrival_time = ⊤) ∧
  (∀ b db, s.best = some (b, db) →
    (b, db) ∈ processed ∧
    s.best_distance = (distTo dist db pickup : WithTop ℚ) ∧
    s.best_estimated_arrival_time = (etaTo dist db pickup : WithTop ℚ) ∧
    MinCand dist pickup processed db)

/-- Decidable check that a node-to-node route computation succeeds with a
non-empty path. -/
def routeOkNonEmpty (s e : String) : Bool :=
  match calculate_optimal_route (some s) (some e) with
  | .ok (some (_ :: _)) => true
  | _ => false

/-- On the configured connected graph, every ordered pair of graph nodes has
a non-empty shortest path. -/
theorem all_node_routes_ok :
    ∀ s ∈ graphNodes, ∀ e ∈ graphNodes, routeOkNonEmpty s e = true := by
  decide

/-- Bridge from the decidable check to the route computation. -/
theorem route_ok_nonfalsy (s : String) (hs : s ∈ graphNodes) (e : String)
    (he : e ∈ graphNodes) :
    ∃ rt, calculate_optimal_route (some s) (some e) = .ok rt ∧
      routeFalsy rt = false := by
  have h := all_node_routes_ok s hs e he
  unfold routeOkNonEmpty at h
  cases hres : calculate_optimal_route (some s) (some e) with
  | ok rt =>
      cases rt with
      | none => rw [hres] at h; simp at h
      | some l =>
          cases l with
          | nil => rw [hres] at h; simp at h
          | cons a as => exact ⟨some (a :: as), rfl, rfl⟩
  | exn => rw [hres] at h; simp at h
  | fuelout => rw [hres] at h; simp at h

/-- The candidate loop, on mapped candidates and a mapped pickup node,
terminates normally without touching the system state and its final best is
an optimal processed candidate (minimal estimated arrival time, distance as
tie-break). -/
theorem evalCandidates_argmin (dist : Coord → Coord → ℚ) (req : Request)
    (p : String) (hp : p ∈ graphNodes) :
    ∀ (avail : List (ℕ × Driver)) (s : LoopState) (st : SystemState)
      (processed : List (ℕ × Driver)),
      (∀ id ∈ avail, ∃ n ∈ graphNodes, get_coordinates id.2.location = some n) →
      BestInv dist req.pickup_address processed s →
      ∃ s2, evalCandidates dist req (some p) avail s st = .ok (s2, st) ∧
        BestInv dist req.pickup_address (processed ++ avail) s2 := by
  intro avail
  induction avail with
  | nil =>
      intro s st processed hmap hinv
      exact ⟨s, rfl, by simpa using hinv⟩
  | cons id rest ih =>
      intro s st processed hmap hinv
      obtain ⟨i, d⟩ := id
      obtain ⟨n, hn, hloc⟩ := hmap (i, d) (List.mem_cons_self _ _)
      obtain ⟨rt, hrt, hfalsy⟩ := route_ok_nonfalsy n hn p hp
      simp only at hloc
      simp only [evalCandidates, hloc, hrt, hfalsy, Bool.false_eq_true,
        if_false]
      split
      · rename_i hcond
        have hinv2 : BestInv dist req.pickup_address (processed ++ [(i, d)])
            { s with
                optimal_route := some rt,
                best := some (i, d),
                best_distance :=
                  ((dist d.location req.pickup_address : ℚ) : WithTop ℚ),
                best_estimated_arrival_time :=
                  ((calculate_estimated_arrival_time
                    (dist d.location req.pickup_address) : ℚ) : WithTop ℚ) } := by
          constructor
          · intro h
            simp at h
          · intro b db heq
            simp only [Option.some.injEq, Prod.mk.injEq] at heq
            obtain ⟨hb, hdb⟩ := heq
            subst hb
            subst hdb
            refine ⟨by simp, by simp [distTo], by simp [etaTo], ?_⟩
            intro jd hjd
            rcases List.mem_append.mp hjd with hjd | hjd
            · rcases hbest : s.best with _ | ⟨b0, db0⟩
              · obtain ⟨hemp, -, -⟩ := hinv.1 hbest
                rw [hemp] at hjd
                exact absurd hjd (List.not_mem_nil jd)
              · obtain ⟨-, hdist0, heta0, hmin0⟩ := hinv.2 b0 db0 hbest
                rw [heta0, hdist0] at hcond
                rcases hcond with hlt | ⟨heq2, hdlt⟩
                · rw [WithTop.coe_lt_coe] at hlt
                  have h1 := (hmin0 jd hjd).1
                  refine ⟨le_trans (le_of_lt hlt) h1, fun heq3 => ?_⟩
                  exfalso
                  have h2 : etaTo dist d req.pickup_address <
                      etaTo dist jd.2 req.pickup_address :=
                    lt_of_lt_of_le hlt h1
                  rw [heq3] at h2
                  exact lt_irrefl _ h2
                · rw [WithTop.coe_eq_coe] at heq2
                  rw [WithTop.coe_lt_coe] at hdlt
                  have h1 := (hmin0 jd hjd).1
                  refine ⟨le_trans (le_of_eq heq2) h1, fun heq3 => ?_⟩
                  have h2 := (hmin0 jd hjd).2 (heq2.symm.trans heq3)
                  exact le_trans (le_of_lt hdlt) h2
            · simp only [List.mem_singleton] at hjd
              rw [hjd]
              exact ⟨le_refl _, fun _ => le_refl _⟩
        obtain ⟨s2, hev, hinv3⟩ :=
          ih _ st (processed ++ [(i, d)])
            (fun jd hjd => hmap jd (List.mem_cons.mpr (Or.inr hjd))) hinv2
        exact ⟨s2, hev, by simpa [List.append_assoc] using hinv3⟩
      · rename_i hcond
        push_neg at hcond
        have hbest2 : ∃ b0 db0, s.best = some (b0, db0) := by
          rcases hbest : s.best with _ | ⟨b0, db0⟩
          · obtain ⟨-, -, heta⟩ := hinv.1 hbest
            rw [heta] at hcond
            exact absurd hcond.1 (by simp)
          · exact ⟨b0, db0, rfl⟩
        obtain ⟨b0, db0, hbest⟩ := hbest2
        obtain ⟨hmem0, hdist0, heta0, hmin0⟩ := hinv.2 b0 db0 hbest
        have hinv2 : BestInv dist req.pickup_address (processed ++ [(i, d)])
            { s with optimal_route := some rt } := by
          constructor
          · intro h
            simp only at h
            rw [h] at hbest
            exact absurd hbest (by simp)
          · intro b db heq
            simp only at heq
            rw [heq] at hbest
            obtain ⟨hb, hdb⟩ : b = b0 ∧ db = db0 := by simpa using hbest
            subst hb
            subst hdb
            refine ⟨List.mem_append.mpr (Or.inl hmem0), hdist0, heta0, ?_⟩
            intro jd hjd
            rcases List.mem_append.mp hjd with hjd | hjd
            · exact hmin0 jd hjd
            · simp only [List.mem_singleton] at hjd
              rw [hjd]
              rw [heta0, hdist0] at hcond
              obtain ⟨hle, htie⟩ := hcond
              rw [WithTop.coe_le_coe] at hle
              refine ⟨hle, fun heq3 => ?_⟩
              have h4 := htie (by rw [WithTop.coe_eq_coe]; exact heq3.symm)
              rw [WithTop.coe_le_coe] at h4
              exact h4
        obtain ⟨s2, hev, hinv3⟩ :=
          ih _ st (processed ++ [(i, d)])
            (fun jd hjd => hmap jd (List.mem_cons.mpr (Or.inr hjd))) hinv2
        exact ⟨s2, hev, by simpa [List.append_assoc] using hinv3⟩

/-- The initial loop state satisfies the loop invariant for an empty prefix. -/
theorem initLoopState_inv (dist : Coord → Coord → ℚ) (pickup : Coord) :
    BestInv dist pickup [] initLoopState := by
  constructor
  · intro _
    exact ⟨rfl, rfl, rfl⟩
  · intro b db h
    simp [initLoopState] at h

/-- C7: on a dispatch cycle whose pickup resolves to a graph node and whose
available candidates all resolve to graph nodes (hence, on the connected
configured graph, are all routable), with at least one candidate, the cycle
commits an assignment whose driver minimizes
`estimated_arrival_time = (distance / AVERAGE_SPEED) * 60` (`AVERAGE_SPEED`
fixed at 30) over all candidates, ties broken by minimal pickup distance. -/
theorem C7_selects_min_eta (dist : Coord → Coord → ℚ) (st : SystemState)
    (r : Request) (t : List Request) (p : String)
    (hq : st.queue = r :: t) (hc : r.is_canceled = false)
    (hp : get_coordinates r.pickup_address = some p) (hpn : p ∈ graphNodes)
    (hmapped : ∀ id ∈ find_available_drivers dist st.drivers r.pickup_address,
      ∃ n ∈ graphNodes, get_coordinates id.2.location = some n)
    (hne : find_available_drivers dist st.drivers r.pickup_address ≠ []) :
    (∀ q : ℚ, calculate_estimated_arrival_time q = q / 30 * 60) ∧
    ∃ a st2, processOne dist st = .ok (some a, st2) ∧
      ∃ db,
        (a.driverIdx, db) ∈
          find_available_drivers dist st.drivers r.pickup_address ∧
        a.estimated_arrival_time =
          ((etaTo dist db r.pickup_address : ℚ) : WithTop ℚ) ∧
        a.distance = ((distTo dist db r.pickup_address : ℚ) : WithTop ℚ) ∧
        MinCand dist r.pickup_address
          (find_available_drivers dist st.drivers r.pickup_address) db := by
  refine ⟨fun q => rfl, ?_⟩
  cases st with
  | mk q0 drv =>
      simp only at hq
      subst hq
      simp only at hmapped hne
      obtain ⟨s2, hev, hinv⟩ :=
        evalCandidates_argmin dist r p hpn
          (find_available_drivers dist drv r.pickup_address) initLoopState
          ⟨t, drv⟩ [] hmapped (initLoopState_inv dist r.pickup_address)
      simp only [processOne, hc, Bool.false_eq_true, if_false, hp, hev]
      rcases hbest : s2.best with _ | ⟨b, db⟩
      · obtain ⟨hemp, -, -⟩ := hinv.1 hbest
        simp only [List.nil_append] at hemp
        exact absurd hemp hne
      · obtain ⟨hmem, hdist, heta, hmin⟩ := hinv.2 b db hbest
        simp only [List.nil_append] at hmem hmin
        refine ⟨_, _, rfl, db, hmem, heta, hdist, hmin⟩

/-- The concrete available-candidate list for the two-driver state. -/
theorem avail_st1 :
    find_available_drivers testDist st1.drivers reqA.pickup_address =
      [(0, mkDriver "d0" locC), (1, mkDriver "d1" locB)] := by
  simp [find_available_drivers, findAvailableGo, mkDriver, st1, MAX_DISTANCE]

/-- Witness for C7 at the concrete two-candidate state. -/
theorem C7_witness :
    (∀ q : ℚ, calculate_estimated_arrival_time q = q / 30 * 60) ∧
    ∃ a st2, processOne testDist st1 = .ok (some a, st2) ∧
      ∃ db,
        (a.driverIdx, db) ∈
          find_available_drivers testDist st1.drivers reqA.pickup_address ∧
        a.estimated_arrival_time =
          ((etaTo testDist db reqA.pickup_address : ℚ) : WithTop ℚ) ∧
        a.distance = ((distTo testDist db reqA.pickup_address : ℚ) : WithTop ℚ) ∧
        MinCand testDist reqA.pickup_address
          (find_available_drivers testDist st1.drivers reqA.pickup_address)
          db :=
  C7_selects_min_eta testDist st1 reqA [] "A" rfl rfl
    (by simpa [reqA] using get_coordinates_locA) (by decide)
    (by
      intro id hid
      rw [avail_st1] at hid
      rcases List.mem_cons.mp hid with h1 | h1
      · exact ⟨"C", by decide, by rw [h1]; simpa [mkDriver] using get_coordinates_locC⟩
      · rcases List.mem_cons.mp h1 with h2 | h2
        · exact ⟨"B", by decide, by rw [h2]; simpa [mkDriver] using get_coordinates_locB⟩
        · exact absurd h2 (List.not_mem_nil id))
    (by rw [avail_st1]; simp)

/-- `get_coordinates` can only produce `None` or one of the configured graph
nodes. -/
theorem get_coordinates_range (c : Coord) :
    get_coordinates c = none ∨
      ∃ n ∈ graphNodes, get_coordinates c = some n := by
  simp only [get_coordinates, getCoordinatesGo, location_mapping]
  split_ifs <;> simp [graphNodes, graph]

/-- Route computation from any graph node towards an unresolved (`None`) end
explores the whole component and returns `None`. -/
theorem route_node_none :
    ∀ s ∈ graphNodes, calculate_optimal_route (some s) none = .ok none := by
  decide

/-- Route computation with both endpoints unresolved returns the empty list
(`current_node` is `None`, so path reconstruction stops immediately). -/
theorem route_none_none : calculate_optimal_route none none = .ok (some []) := by
  decide

/-- Route computation from an unresolved (`None`) start towards any graph
node raises `KeyError` at `self.graph[None]`. -/
theorem route_none_node :
    ∀ e ∈ graphNodes, calculate_optimal_route none (some e) = .exn := by
  decide

/-- When the pickup node is resolved (a graph node), a normally-completing
candidate loop never requeues the request — every candidate either resolves
to a graph node (and then has a non-empty route on the connected graph) or
makes the whole loop raise — and any recorded best comes from the candidate
list (or was already recorded). -/
theorem evalCandidates_mapped_pickup (dist : Coord → Coord → ℚ) (r : Request)
    (p : String) (hp : p ∈ graphNodes) :
    ∀ (avail : List (ℕ × Driver)) (s : LoopState) (st : SystemState) s2 st2,
      evalCandidates dist r (some p) avail s st = .ok (s2, st2) →
      st2 = st ∧
        (∀ b db, s2.best = some (b, db) →
          (b, db) ∈ avail ∨ s.best = some (b, db)) := by
  intro avail
  induction avail with
  | nil =>
      intro s st s2 st2 h
      simp only [evalCandidates, PyResult.ok.injEq, Prod.mk.injEq] at h
      obtain ⟨hs, hst⟩ := h
      exact ⟨hst.symm, fun b db hb => Or.inr (hs ▸ hb)⟩
  | cons id rest ih =>
      intro s st s2 st2 h
      obtain ⟨i, d⟩ := id
      rcases get_coordinates_range d.location with hloc | ⟨n, hn, hloc⟩
      · rw [show evalCandidates dist r (some p) ((i, d) :: rest) s st =
            .exn by
          simp only [evalCandidates, hloc, route_none_node p hp]] at h
        exact absurd h (by simp)
      · obtain ⟨rt, hrt, hfalsy⟩ := route_ok_nonfalsy n hn p hp
        simp only [evalCandidates, hloc, hrt, hfalsy, Bool.false_eq_true,
          if_false] at h
        split at h
        · obtain ⟨hst, hbest⟩ := ih _ _ _ _ h
          refine ⟨hst, fun b db hb => ?_⟩
          rcases hbest b db hb with h1 | h1
          · exact Or.inl (List.mem_cons.mpr (Or.inr h1))
          · simp only [Option.some.injEq, Prod.mk.injEq] at h1
            exact Or.inl (List.mem_cons.mpr (Or.inl (by simp [h1.1, h1.2])))
        · obtain ⟨hst, hbest⟩ := ih _ _ _ _ h
          refine ⟨hst, fun b db hb => ?_⟩
          rcases hbest b db hb with h1 | h1
          · exact Or.inl (List.mem_cons.mpr (Or.inr h1))
          · exact Or.inr h1

/-- When the pickup node is unresolved (`None`), every candidate's route is
falsy (`None` from a graph node, `[]` from an unresolved driver), so the
loop records no best candidate: it only requeues. -/
theorem evalCandidates_unmapped_pickup (dist : Coord → Coord → ℚ)
    (r : Request) :
    ∀ (avail : List (ℕ × Driver)) (s : LoopState) (st : SystemState) s2 st2,
      evalCandidates dist r none avail s st = .ok (s2, st2) →
      s2.best = s.best := by
  intro avail
  induction avail with
  | nil =>
      intro s st s2 st2 h
      simp only [evalCandidates, PyResult.ok.injEq, Prod.mk.injEq] at h
      rw [← h.1]
  | cons id rest ih =>
      intro s st s2 st2 h
      obtain ⟨i, d⟩ := id
      rcases get_coordinates_range d.location with hloc | ⟨n, hn, hloc⟩
      · simp only [evalCandidates, hloc, route_none_none, routeFalsy,
          if_true] at h
        simpa using ih _ _ _ _ h
      · simp only [evalCandidates, hloc, route_node_none n hn, routeFalsy,
          if_true] at h
        simpa using ih _ _ _ _ h

/-- Availability scan: every returned pair is an available driver of the
registry, at its index. -/
theorem findAvailableGo_mem (dist : Coord → Coord → ℚ) (pickup : Coord) :
    ∀ (drivers : List Driver) (k i : ℕ) (d : Driver),
      (i, d) ∈ findAvailableGo dist pickup k drivers →
      d.is_available = true ∧ ∃ j, i = k + j ∧ getIdx drivers j = some d := by
  intro drivers
  induction drivers with
  | nil =>
      intro k i d h
      exact absurd h (List.not_mem_nil _)
  | cons hd rest ih =>
      intro k i d h
      simp only [findAvailableGo] at h
      split at h
      · rename_i hcond
        rcases List.mem_cons.mp h with h1 | h1
        · simp only [Prod.mk.injEq] at h1
          obtain ⟨hi, hd2⟩ := h1
          subst hi
          refine ⟨hd2 ▸ hcond.1, 0, by simp, ?_⟩
          rw [← hd2]
          rfl
        · obtain ⟨ha, j, hij, hget⟩ := ih (k + 1) i d h1
          exact ⟨ha, j + 1, by omega, by simpa [getIdx] using hget⟩
      · obtain ⟨ha, j, hij, hget⟩ := ih (k + 1) i d h
        exact ⟨ha, j + 1, by omega, by simpa [getIdx] using hget⟩

/-- `find_available_drivers` membership: the pair indexes an available driver
record of the registry. -/
theorem find_available_mem (dist : Coord → Coord → ℚ) (drivers : List Driver)
    (pickup : Coord) (i : ℕ) (d : Driver)
    (h : (i, d) ∈ find_available_drivers dist drivers pickup) :
    getIdx drivers i = some d ∧ d.is_available = true := by
  obtain ⟨ha, j, hij, hget⟩ := findAvailableGo_mem dist pickup drivers 0 i d h
  exact ⟨by simpa [hij] using hget, ha⟩

/-- The candidate loop never touches the driver list and only ever appends
copies of the processed request to the queue. -/
theorem evalCandidates_state_shape (dist : Coord → Coord → ℚ) (r : Request)
    (pnode : Val) :
    ∀ (avail : List (ℕ × Driver)) (s : LoopState) (st : SystemState) s2 st2,
      evalCandidates dist r pnode avail s st = .ok (s2, st2) →
      st2.drivers = st.drivers ∧
        ∃ k, st2.queue = st.queue ++ List.replicate k r := by
  intro avail
  induction avail with
  | nil =>
      intro s st s2 st2 h
      simp only [evalCandidates, PyResult.ok.injEq, Prod.mk.injEq] at h
      exact ⟨by rw [← h.2], 0, by rw [← h.2]; simp⟩
  | cons id rest ih =>
      intro s st s2 st2 h
      obtain ⟨i, d⟩ := id
      simp only [evalCandidates] at h
      split at h
      · exact absurd h (by simp)
      · exact absurd h (by simp)
      · split at h
        · obtain ⟨hdrv, k, hqueue⟩ := ih _ _ _ _ h
          refine ⟨by simpa [handle_unavailable_driver] using hdrv, k + 1, ?_⟩
          rw [hqueue]
          simp [handle_unavailable_driver, List.replicate_succ]
        · split at h
          · obtain ⟨hdrv, k, hqueue⟩ := ih _ _ _ _ h
            exact ⟨hdrv, k, hqueue⟩
          · obtain ⟨hdrv, k, hqueue⟩ := ih _ _ _ _ h
            exact ⟨hdrv, k, hqueue⟩

/-- Shape of a committing dispatch cycle: the head request was popped and is
the assigned one, the queue afterwards is exactly the tail (no requeued
copies), the pickup resolved to a graph node, and the driver list changed
only at the committed driver's index, which was available and now carries the
request. -/
theorem processOne_commit_shape (dist : Coord → Coord → ℚ) (st : SystemState)
    (a : Assignment) (st2 : SystemState)
    (h : processOne dist st = .ok (some a, st2)) :
    ∃ hreq t, st.queue = hreq :: t ∧ st2.queue = t ∧ a.request = hreq ∧
      hreq.is_canceled = false ∧
      (∃ p ∈ graphNodes, get_coordinates hreq.pickup_address = some p) ∧
      ∃ i d rt, getIdx st.drivers i = some d ∧ d.is_available = true ∧
        a.driverIdx = i ∧
        st2.drivers = updateAt st.drivers i
          { d with
              is_available := false,
              current_passenger := some hreq,
              current_route := some rt } := by
  cases st with
  | mk q drv =>
      cases q with
      | nil => simp [processOne] at h
      | cons hreq t =>
          by_cases hcanc : hreq.is_canceled = true
          · simp [processOne, hcanc] at h
          · rw [Bool.not_eq_true] at hcanc
            simp only [processOne, hcanc, Bool.false_eq_true, if_false] at h
            rcases get_coordinates_range hreq.pickup_address with hpn | ⟨p, hp, hpn⟩
            · rw [hpn] at h
              cases hev : evalCandidates dist hreq none
                  (find_available_drivers dist drv hreq.pickup_address)
                  initLoopState ⟨t, drv⟩ with
              | exn => rw [hev] at h; exact absurd h (by simp)
              | fuelout => rw [hev] at h; exact absurd h (by simp)
              | ok pr =>
                  obtain ⟨s2, st3⟩ := pr
                  have hbest := evalCandidates_unmapped_pickup dist hreq _ _ _
                    _ _ hev
                  simp only [initLoopState] at hbest
                  simp only [hev, hbest] at h
                  exact absurd h (by simp)
            · rw [hpn] at h
              cases hev : evalCandidates dist hreq (some p)
                  (find_available_drivers dist drv hreq.pickup_address)
                  initLoopState ⟨t, drv⟩ with
              | exn => rw [hev] at h; exact absurd h (by simp)
              | fuelout => rw [hev] at h; exact absurd h (by simp)
              | ok pr =>
                  obtain ⟨s2, st3⟩ := pr
                  obtain ⟨hst3, hbestmem⟩ :=
                    evalCandidates_mapped_pickup dist hreq p hp _ _ _ _ _ hev
                  rcases hbest : s2.best with _ | ⟨b, db⟩
                  · simp only [hev, hbest] at h
                    exact absurd h (by simp)
                  · simp only [hev, hbest] at h
                    rcases hbestmem b db hbest with hmem | hinit
                    · obtain ⟨hget, havail⟩ :=
                        find_available_mem dist drv hreq.pickup_address b db
                          (by simpa using hmem)
                      rw [hst3] at h
                      simp only [assign_ride] at h
                      have hget2 : getIdx (⟨t, drv⟩ : SystemState).drivers b =
                          some db := hget
                      simp only [hget2, havail, if_true, PyResult.ok.injEq,
                        Prod.mk.injEq, Option.some.injEq] at h
                      obtain ⟨ha, hst2⟩ := h
                      refine ⟨hreq, t, rfl, ?_, ?_, hcanc, ⟨p, hp, hpn⟩,
                        b, db, s2.optimal_route.getD none, hget, havail, ?_, ?_⟩
                      · rw [← hst2]
                      · rw [← ha]
                      · rw [← ha]
                      · rw [← hst2]
                    · simp only [initLoopState] at hinit
                      exact absurd hinit (by simp)

/-- Shape of a non-committing dispatch cycle: either the queue was empty and
nothing happened, or the head was popped, the drivers are untouched, and the
queue afterwards is the tail followed by some number of requeued copies of
the head (one per falsy-routed candidate, plus one for the no-candidate
fallback; zero when the head was canceled; at most the single fallback copy
when the pickup resolves to a graph node). -/
theorem processOne_requeue_shape (dist : Coord → Coord → ℚ)
    (st : SystemState) (st2 : SystemState)
    (h : processOne dist st = .ok (none, st2)) :
    (st.queue = [] ∧ st2 = st) ∨
    ∃ hreq t, st.queue = hreq :: t ∧ st2.drivers = st.drivers ∧
      ∃ k, st2.queue = t ++ List.replicate k hreq ∧
        (∀ p, get_coordinates hreq.pickup_address = some p → k ≤ 1) := by
  cases st with
  | mk q drv =>
      cases q with
      | nil =>
          left
          simp only [processOne, PyResult.ok.injEq, Prod.mk.injEq] at h
          exact ⟨rfl, h.2.symm⟩
      | cons hreq t =>
          right
          by_cases hcanc : hreq.is_canceled = true
          · simp only [processOne, hcanc, if_true, PyResult.ok.injEq,
              Prod.mk.injEq] at h
            exact ⟨hreq, t, rfl, by rw [← h.2], 0, by rw [← h.2]; simp,
              fun p _ => Nat.zero_le 1⟩
          · rw [Bool.not_eq_true] at hcanc
            simp only [processOne, hcanc, Bool.false_eq_true, if_false] at h
            rcases get_coordinates_range hreq.pickup_address with hpn | ⟨p, hp, hpn⟩
            · cases hev : evalCandidates dist hreq
                  (get_coordinates hreq.pickup_address)
                  (find_available_drivers dist drv hreq.pickup_address)
                  initLoopState ⟨t, drv⟩ with
              | exn => rw [hev] at h; exact absurd h (by simp)
              | fuelout => rw [hev] at h; exact absurd h (by simp)
              | ok pr =>
                  obtain ⟨s2, st3⟩ := pr
                  obtain ⟨hdrv3, k, hq3⟩ :=
                    evalCandidates_state_shape dist hreq _ _ _ _ _ _ hev
                  simp only at hdrv3 hq3
                  simp only [hev] at h
                  rcases hbest : s2.best with _ | ⟨b, db⟩
                  · simp only [hbest, PyResult.ok.injEq, Prod.mk.injEq,
                      handle_unavailable_driver] at h
                    refine ⟨hreq, t, rfl, ?_, k + 1, ?_, ?_⟩
                    · rw [← h.2]
                      exact hdrv3
                    · rw [← h.2]
                      simp only [hq3]
                      simp [List.replicate_succ']
                    · intro p hps
                      rw [hpn] at hps
                      exact absurd hps (by simp)
                  · simp only [hbest] at h
                    exact absurd h (by simp)
            · rw [hpn] at h
              cases hev : evalCandidates dist hreq (some p)
                  (find_available_drivers dist drv hreq.pickup_address)
                  initLoopState ⟨t, drv⟩ with
              | exn => rw [hev] at h; exact absurd h (by simp)
              | fuelout => rw [hev] at h; exact absurd h (by simp)
              | ok pr =>
                  obtain ⟨s2, st3⟩ := pr
                  obtain ⟨hst3, -⟩ :=
                    evalCandidates_mapped_pickup dist hreq p hp _ _ _ _ _ hev
                  simp only [hev] at h
                  rcases hbest : s2.best with _ | ⟨b, db⟩
                  · simp only [hbest, PyResult.ok.injEq, Prod.mk.injEq,
                      handle_unavailable_driver] at h
                    refine ⟨hreq, t, rfl, ?_, 1, ?_, fun _ _ => le_refl 1⟩
                    · rw [← h.2, hst3]
                    · rw [← h.2, hst3]
                      simp
                  · simp only [hbest] at h
                    exact absurd h (by simp)

/-- An unroutable candidate followed by a routable one: the driver at the
unmapped coordinate makes the whole cycle raise `KeyError` before the
routable candidate could be committed. -/
def st10b : SystemState :=
  { queue := [reqA], drivers := [mkDriver "dx" locX, mkDriver "d1" locB] }

/-- C10 (counterexample): in the scenario the claim describes — a cycle
holding both a candidate whose route computation fails and a routable
candidate that would be committed — the configured system does not requeue
and then commit: resolving the unmapped driver coordinate yields `None` and
the route computation raises `KeyError`, aborting the cycle with no
assignment and no state change at all. -/
theorem C10_counterexample_no_commit_with_requeue :
    processOne testDist st10b = .exn := by
  simp [processOne, st10b, reqA, mkDriver, find_available_drivers,
    findAvailableGo, evalCandidates, MAX_DISTANCE, get_coordinates_locX,
    get_coordinates_locA, route_none_A]

/-- C10 (amended): within a single dispatch cycle the request is appended to
the queue once per available candidate whose route computation returns a
falsy route — concretely, with an unmapped pickup and two mapped available
drivers the queue afterwards holds three copies (two candidate requeues plus
the no-candidate fallback); but a cycle that commits never requeues: with
the configured graph and mapping, a committing cycle leaves the queue at
exactly the tail of the original queue. -/
theorem C10_amended_requeue_copies :
    processOne testDist st10 =
      .ok (none, { queue := [reqX, reqX, reqX], drivers := st10.drivers }) ∧
    ∀ (dist : Coord → Coord → ℚ) (st : SystemState) (a : Assignment)
      (st2 : SystemState),
      processOne dist st = .ok (some a, st2) →
      st2.queue = st.queue.drop 1 := by
  constructor
  · simp [processOne, st10, reqX, mkDriver, find_available_drivers,
      findAvailableGo, evalCandidates, MAX_DISTANCE, get_coordinates_locX,
      get_coordinates_locB, get_coordinates_locC, routeFalsy,
      handle_unavailable_driver, initLoopState,
      route_node_none "B" (by decide), route_node_none "C" (by decide)]
  · intro dist st a st2 h
    obtain ⟨hreq, t, hq, hq2, -⟩ := processOne_commit_shape dist st a st2 h
    rw [hq, hq2]
    rfl

/-- The zero distance function, a trivially evaluable instantiation of the
abstracted haversine used by the C10 witness. -/
def zeroDist : Coord → Coord → ℚ := fun _ _ => 0

/-- The single-driver state committed by the C10 witness cycle. -/
def stW : SystemState := { queue := [reqA], drivers := [mkDriver "d0" locC] }

/-- Witness for C10's amended claim: a concrete committing cycle leaves the
queue at exactly the tail. -/
theorem C10_witness :
    ({ queue := [], drivers := [{ mkDriver "d0" locC with
        is_available := false, current_passenger := some reqA,
        current_route := some (some ["C", "B", "A"]) }] } :
      SystemState).queue = stW.queue.drop 1 :=
  C10_amended_requeue_copies.2 zeroDist stW
    { driverIdx := 0, request := reqA, route := some ["C", "B", "A"],
      distance := ((0 : ℚ) : WithTop ℚ),
      estimated_arrival_time := ((0 : ℚ) : WithTop ℚ) }
    { queue := [], drivers := [{ mkDriver "d0" locC with
        is_available := false, current_passenger := some reqA,
        current_route := some (some ["C", "B", "A"]) }] }
    (by
      simp [processOne, stW, reqA, mkDriver, find_available_drivers,
        findAvailableGo, evalCandidates, MAX_DISTANCE, get_coordinates_locA,
        get_coordinates_locC, route_C_A, routeFalsy, initLoopState,
        assign_ride, getIdx, updateAt, zeroDist,
        calculate_estimated_arrival_time])

/-- Number of queue entries carrying a given request uuid (all such entries
alias one Python request object). -/
def uuidCount : List Request → ℕ → ℕ
  | [], _ => 0
  | r :: rest, u => (if r.uuid = u then 1 else 0) + uuidCount rest u

/-- `uuidCount` distributes over append. -/
theorem uuidCount_append (a b : List Request) (u : ℕ) :
    uuidCount (a ++ b) u = uuidCount a u + uuidCount b u := by
  induction a with
  | nil => simp [uuidCount]
  | cons x xs ih => simp [uuidCount, ih, Nat.add_assoc]

/-- `uuidCount` of replicated copies. -/
theorem uuidCount_replicate (k : ℕ) (r : Request) (u : ℕ) :
    uuidCount (List.replicate k r) u = if r.uuid = u then k else 0 := by
  induction k with
  | zero => simp [uuidCount]
  | succ k ih =>
      simp only [List.replicate_succ, uuidCount, ih]
      split <;> omega

/-- A queue with no entry of the uuid counts zero. -/
theorem uuidCount_eq_zero (q : List Request) (u : ℕ)
    (h : ∀ x ∈ q, x.uuid ≠ u) : uuidCount q u = 0 := by
  induction q with
  | nil => rfl
  | cons x xs ih =>
      simp only [uuidCount, if_neg (h x (List.mem_cons_self _ _)),
        Nat.zero_add]
      exact ih (fun y hy => h y (List.mem_cons.mpr (Or.inr hy)))

/-- A member's uuid is counted at least once. -/
theorem uuidCount_pos (q : List Request) (r : Request) (hr : r ∈ q) :
    1 ≤ uuidCount q r.uuid := by
  induction q with
  | nil => exact absurd hr (List.not_mem_nil r)
  | cons x xs ih =>
      rcases List.mem_cons.mp hr with h1 | h1
      · simp [uuidCount, h1]
      · simp only [uuidCount]
        exact le_trans (ih h1) (Nat.le_add_left _ _)

/-- If the uuid counts zero, no member carries it. -/
theorem not_uuid_of_count_zero (q : List Request) (u : ℕ)
    (h : uuidCount q u = 0) : ∀ x ∈ q, x.uuid ≠ u := by
  induction q with
  | nil => intro x hx; exact absurd hx (List.not_mem_nil x)
  | cons y ys ih =>
      simp only [uuidCount] at h
      intro x hx
      rcases List.mem_cons.mp hx with h1 | h1
      · intro hxu
        rw [h1] at hxu
        rw [if_pos hxu] at h
        omega
      · exact ih (by omega) x h1

/-- `uuidCount` of a cons. -/
theorem uuidCount_cons (x : Request) (q : List Request) (u : ℕ) :
    uuidCount (x :: q) u = (if x.uuid = u then 1 else 0) + uuidCount q u :=
  rfl

/-- An element of an updated list is the new element or an old one. -/
theorem updateAt_mem {α : Type} :
    ∀ (l : List α) (i : ℕ) (b x : α), x ∈ updateAt l i b → x = b ∨ x ∈ l := by
  intro l
  induction l with
  | nil => intro i b x hx; exact absurd hx (List.not_mem_nil x)
  | cons y ys ih =>
      intro i b x hx
      cases i with
      | zero =>
          rcases List.mem_cons.mp hx with h1 | h1
          · exact Or.inl h1
          · exact Or.inr (List.mem_cons.mpr (Or.inr h1))
      | succ i =>
          rcases List.mem_cons.mp hx with h1 | h1
          · exact Or.inr (List.mem_cons.mpr (Or.inl h1))
          · rcases ih i b x h1 with h2 | h2
            · exact Or.inl h2
            · exact Or.inr (List.mem_cons.mpr (Or.inr h2))

/-- The spec's §3 invariant (second half): the pending queue never contains a
request held by a committed driver — no driver record attached to a request
shares its uuid with any queued entry. -/
def NoQueuedAssigned (st : SystemState) : Prop :=
  ∀ d ∈ st.drivers, ∀ r, d.current_passenger = some r →
    ∀ r2 ∈ st.queue, r2.uuid ≠ r.uuid

/-- Auxiliary queue invariants: queued entries with equal uuids are equal
(aliases of one request object), and a uuid occurring more than once belongs
to a request whose pickup coordinate is unmapped (only such requests are ever
duplicated, by per-candidate requeuing). -/
def QueueInv (st : SystemState) : Prop :=
  (∀ r1 ∈ st.queue, ∀ r2 ∈ st.queue, r1.uuid = r2.uuid → r1 = r2) ∧
  (∀ r ∈ st.queue, 2 ≤ uuidCount st.queue r.uuid →
    get_coordinates r.pickup_address = none)

/-- The full inductive invariant for reachability. -/
def SysInv (st : SystemState) : Prop := NoQueuedAssigned st ∧ QueueInv st

/-- States reachable by the system's operations: starting from a state with
an empty queue and no committed driver, any mix of (i) enqueuing a freshly
created request (its uuid is new and it starts uncanceled, as
`PassengerRequest.__init__` guarantees), (ii) canceling a request, and
(iii) normally-completing dispatch cycles.  A cycle that raises produces no
successor state. -/
inductive Reachable : SystemState → Prop where
  | init (st : SystemState) : st.queue = [] →
      (∀ d ∈ st.drivers, d.current_passenger = none) → Reachable st
  | enqueue (st : SystemState) (r : Request) : Reachable st →
      r.is_canceled = false →
      (∀ r2 ∈ st.queue, r2.uuid ≠ r.uuid) →
      (∀ d ∈ st.drivers, ∀ r2, d.current_passenger = some r2 →
        r2.uuid ≠ r.uuid) →
      Reachable { st with queue := st.queue ++ [r] }
  | cancel (st : SystemState) (u : ℕ) : Reachable st →
      Reachable (cancelInState st u)
  | step (st : SystemState) (dist : Coord → Coord → ℚ)
      (res : Option Assignment) (st2 : SystemState) : Reachable st →
      processOne dist st = .ok (res, st2) → Reachable st2

/-- The invariant holds in every initial state. -/
theorem sysInv_init (st : SystemState) (hq : st.queue = [])
    (_hd : ∀ d ∈ st.drivers, d.current_passenger = none) : SysInv st := by
  refine ⟨?_, ?_, ?_⟩
  · intro d hdm r hatt r2 hr2
    rw [hq] at hr2
    exact absurd hr2 (List.not_mem_nil r2)
  · intro r1 h1 r2 h2 _
    rw [hq] at h1
    exact absurd h1 (List.not_mem_nil r1)
  · intro r hr _
    rw [hq] at hr
    exact absurd hr (List.not_mem_nil r)

/-- Enqueuing a freshly created request preserves the invariant. -/
theorem sysInv_enqueue (st : SystemState) (r : Request) (hInv : SysInv st)
    (hfq : ∀ r2 ∈ st.queue, r2.uuid ≠ r.uuid)
    (hfd : ∀ d ∈ st.drivers, ∀ r2, d.current_passenger = some r2 →
      r2.uuid ≠ r.uuid) :
    SysInv { st with queue := st.queue ++ [r] } := by
  obtain ⟨hA, hB, hC⟩ := hInv
  refine ⟨?_, ?_, ?_⟩
  · intro d hdm r0 hatt r2 hr2
    rcases List.mem_append.mp hr2 with h1 | h1
    · exact hA d hdm r0 hatt r2 h1
    · simp only [List.mem_singleton] at h1
      subst h1
      exact (hfd d hdm r0 hatt).symm
  · intro r1 h1 r2 h2 huv
    rcases List.mem_append.mp h1 with h1a | h1a <;>
      rcases List.mem_append.mp h2 with h2a | h2a
    · exact hB r1 h1a r2 h2a huv
    · simp only [List.mem_singleton] at h2a
      subst h2a
      exact absurd huv (hfq r1 h1a)
    · simp only [List.mem_singleton] at h1a
      subst h1a
      exact absurd huv.symm (hfq r2 h2a)
    · simp only [List.mem_singleton] at h1a h2a
      rw [h1a, h2a]
  · intro r0 hr0 hcount
    have hcount2 : 2 ≤ uuidCount (st.queue ++ [r]) r0.uuid := hcount
    rw [uuidCount_append] at hcount2
    rcases List.mem_append.mp hr0 with h1 | h1
    · have hne : r.uuid ≠ r0.uuid := fun he => hfq r0 h1 he.symm
      have hz : uuidCount [r] r0.uuid = 0 := by simp [uuidCount, hne]
      rw [hz, Nat.add_zero] at hcount2
      exact hC r0 h1 hcount2
    · simp only [List.mem_singleton] at h1
      subst h1
      have hz : uuidCount st.queue r0.uuid = 0 := uuidCount_eq_zero _ _ hfq
      rw [hz, Nat.zero_add] at hcount2
      simp [uuidCount] at hcount2

/-- Canceling preserves a request's uuid. -/
theorem cancel_preserve_uuid (u : ℕ) (r : Request) :
    (if r.uuid = u then cancelRequest r else r).uuid = r.uuid := by
  split <;> rfl

/-- Canceling preserves a request's pickup coordinate. -/
theorem cancel_preserve_pickup (u : ℕ) (r : Request) :
    (if r.uuid = u then cancelRequest r else r).pickup_address =
      r.pickup_address := by
  split <;> rfl

/-- Cancellation does not change uuid counts. -/
theorem uuidCount_cancel (u u0 : ℕ) (q : List Request) :
    uuidCount
      (q.map (fun r => if r.uuid = u then cancelRequest r else r)) u0 =
      uuidCount q u0 := by
  induction q with
  | nil => rfl
  | cons x xs ih =>
      simp only [List.map_cons, uuidCount, ih, cancel_preserve_uuid]

/-- Cancellation preserves the invariant. -/
theorem sysInv_cancel (st : SystemState) (u : ℕ) (hInv : SysInv st) :
    SysInv (cancelInState st u) := by
  obtain ⟨hA, hB, hC⟩ := hInv
  refine ⟨?_, ?_, ?_⟩
  · intro d hdm r0 hatt r2 hr2
    obtain ⟨r3, hr3, hr32⟩ := List.mem_map.mp hr2
    rw [← hr32, cancel_preserve_uuid]
    exact hA d hdm r0 hatt r3 hr3
  · intro r1 h1 r2 h2 huv
    obtain ⟨r1o, h1o, e1⟩ := List.mem_map.mp h1
    obtain ⟨r2o, h2o, e2⟩ := List.mem_map.mp h2
    rw [← e1, ← e2, cancel_preserve_uuid, cancel_preserve_uuid] at huv
    rw [← e1, ← e2, hB r1o h1o r2o h2o huv]
  · intro r0 hr0 hcount
    obtain ⟨r0o, h0o, e0⟩ := List.mem_map.mp hr0
    have hcnt2 : 2 ≤ uuidCount st.queue r0o.uuid := by
      have h5 := hcount
      simp only [cancelInState] at h5
      rw [uuidCount_cancel, ← e0, cancel_preserve_uuid] at h5
      exact h5
    rw [← e0, cancel_preserve_pickup]
    exact hC r0o h0o hcnt2

/-- A normally-completing dispatch cycle preserves the invariant. -/
theorem sysInv_step (st : SystemState) (dist : Coord → Coord → ℚ)
    (res : Option Assignment) (st2 : SystemState) (hInv : SysInv st)
    (h : processOne dist st = .ok (res, st2)) : SysInv st2 := by
  obtain ⟨hA, hB, hC⟩ := hInv
  cases res with
  | none =>
      rcases processOne_requeue_shape dist st st2 h with
        ⟨hq, hst⟩ | ⟨hreq, t, hq, hdrv, k, hq2, hbound⟩
      · rw [hst]
        exact ⟨hA, hB, hC⟩
      · have hreqmem : hreq ∈ st.queue := by
          rw [hq]
          exact List.mem_cons_self _ _
        have hmemQ : ∀ x ∈ st2.queue, x ∈ st.queue := by
          intro x hx
          rw [hq2] at hx
          rw [hq]
          rcases List.mem_append.mp hx with h1 | h1
          · exact List.mem_cons.mpr (Or.inr h1)
          · rw [List.eq_of_mem_replicate h1]
            exact List.mem_cons_self _ _
        refine ⟨?_, ?_, ?_⟩
        · intro d hdm r0 hatt r2 hr2
          rw [hdrv] at hdm
          exact hA d hdm r0 hatt r2 (hmemQ r2 hr2)
        · intro r1 h1 r2 h2 huv
          exact hB r1 (hmemQ r1 h1) r2 (hmemQ r2 h2) huv
        · intro r0 hr0 hcount
          by_cases hu : hreq.uuid = r0.uuid
          · have hr0eq : r0 = hreq :=
              hB r0 (hmemQ r0 hr0) hreq hreqmem hu.symm
            rw [hr0eq]
            rcases get_coordinates_range hreq.pickup_address with
              hpn | ⟨p, hp, hpn⟩
            · exact hpn
            · exfalso
              have hk := hbound p hpn
              have hcold : uuidCount st.queue hreq.uuid ≤ 1 := by
                by_contra hgt
                push_neg at hgt
                have h2 := hC hreq hreqmem (by omega)
                exact absurd (h2.symm.trans hpn) (by simp)
              rw [hq, uuidCount_cons, if_pos rfl] at hcold
              have hct : uuidCount t hreq.uuid = 0 := by omega
              rw [hq2, uuidCount_append, uuidCount_replicate, ← hu,
                if_pos rfl, hct] at hcount
              omega
          · rw [hq2, uuidCount_append, uuidCount_replicate,
              if_neg hu] at hcount
            have h2 : 2 ≤ uuidCount t r0.uuid := by omega
            have h3 : 2 ≤ uuidCount st.queue r0.uuid := by
              rw [hq, uuidCount_cons]
              exact le_trans h2 (Nat.le_add_left _ _)
            exact hC r0 (hmemQ r0 hr0) h3
  | some a =>
      obtain ⟨hreq, t, hq, hq2, hareq, hcanc, ⟨p, hp, hpn⟩, i, d0, rt, hget,
        havail, haidx, hdrv2⟩ := processOne_commit_shape dist st a st2 h
      have hreqmem : hreq ∈ st.queue := by
        rw [hq]
        exact List.mem_cons_self _ _
      have hcold : uuidCount st.queue hreq.uuid ≤ 1 := by
        by_contra hgt
        push_neg at hgt
        have h2 := hC hreq hreqmem (by omega)
        exact absurd (h2.symm.trans hpn) (by simp)
      have hct : uuidCount t hreq.uuid = 0 := by
        rw [hq, uuidCount_cons, if_pos rfl] at hcold
        omega
      have htclean := not_uuid_of_count_zero t hreq.uuid hct
      have hmemQ : ∀ x ∈ st2.queue, x ∈ st.queue := by
        intro x hx
        rw [hq2] at hx
        rw [hq]
        exact List.mem_cons.mpr (Or.inr hx)
      refine ⟨?_, ?_, ?_⟩
      · intro d hdm r0 hatt r2 hr2
        rw [hdrv2] at hdm
        rcases updateAt_mem st.drivers i _ d hdm with h1 | h1
        · rw [h1] at hatt
          simp only [Option.some.injEq] at hatt
          rw [hq2] at hr2
          rw [← hatt]
          exact htclean r2 hr2
        · exact hA d h1 r0 hatt r2 (hmemQ r2 hr2)
      · intro r1 h1 r2 h2 huv
        exact hB r1 (hmemQ r1 h1) r2 (hmemQ r2 h2) huv
      · intro r0 hr0 hcount
        have h3 : 2 ≤ uuidCount st.queue r0.uuid := by
          rw [hq, uuidCount_cons]
          rw [hq2] at hcount
          exact le_trans hcount (Nat.le_add_left _ _)
        exact hC r0 (hmemQ r0 hr0) h3

/-- C2: in every state reachable by any mix of fresh enqueues, cancellations,
and normally-completing dispatch cycles, the pending-request queue never
contains a request that is simultaneously attached to a committed driver:
no queued entry shares its uuid with any driver's current passenger. -/
theorem C2_no_queued_assigned_request (st : SystemState)
    (h : Reachable st) : NoQueuedAssigned st := by
  have hInv : SysInv st := by
    induction h with
    | init st hq hd => exact sysInv_init st hq hd
    | enqueue st r hr hc hfq hfd ih => exact sysInv_enqueue st r ih hfq hfd
    | cancel st u hr ih => exact sysInv_cancel st u ih
    | step st dist res st2 hr hstep ih => exact sysInv_step st dist res st2 ih hstep
  exact hInv.1

/-- Witness for C2 at a concrete reachable state: start with one free driver,
enqueue a fresh request, run one committing dispatch cycle; the resulting
state (request attached to the driver, queue empty) satisfies the
invariant. -/
theorem C2_witness :
    NoQueuedAssigned
      { queue := [],
        drivers := [{ mkDriver "d0" locC with
          is_available := false, current_passenger := some reqA,
          current_route := some (some ["C", "B", "A"]) }] } :=
  C2_no_queued_assigned_request _
    (Reachable.step _ zeroDist
      (some
        { driverIdx := 0, request := reqA, route := some ["C", "B", "A"],
          distance := ((0 : ℚ) : WithTop ℚ),
          estimated_arrival_time := ((0 : ℚ) : WithTop ℚ) })
      _
      (Reachable.enqueue { queue := [], drivers := [mkDriver "d0" locC] }
        reqA
        (Reachable.init _ rfl (by
          intro d hd
          simp only [List.mem_singleton] at hd
          rw [hd]
          rfl))
        rfl
        (by intro r2 hr2; exact absurd hr2 (List.not_mem_nil r2))
        (by
          intro d hd r2 hatt
          simp only [List.mem_singleton] at hd
          rw [hd] at hatt
          exact absurd hatt (by simp [mkDriver])))
      (by
        simp [processOne, stW, reqA, mkDriver, find_available_drivers,
          findAvailableGo, evalCandidates, MAX_DISTANCE, get_coordinates_locA,
          get_coordinates_locC, route_C_A, routeFalsy, initLoopState,
          assign_ride, getIdx, updateAt, zeroDist,
          calculate_estimated_arrival_time]))
